import Mathlib

/-!
Verification of the PS-RoI Pool / PS-RoI Align operators of the torchvision
ops package (files ps_roi_pool.py and ps_roi_align.py) against their
natural-language specification.  The repository source only contains the
autograd-glue layer; the native kernels (ps_roi_pool_forward and friends,
reached through a lazily imported handle) are not part of the source tree,
so they are modelled from the specification, as marked on each definition.
Floating-point values are embedded as rationals.
-/

namespace PSRoI

/-- FeatureMap: a 4D array [N, C, H, W] of values, with explicit dimensions
and the payload as a total index function. -/
structure FeatureMap where
  N : ℕ
  C : ℕ
  H : ℕ
  W : ℕ
  data : ℕ → ℕ → ℕ → ℕ → ℚ

/-- One region row (batch_index, x1, y1, x2, y2) of the RegionList. -/
structure Roi where
  batchIdx : ℤ
  x1 : ℚ
  y1 : ℚ
  x2 : ℚ
  y2 : ℚ
deriving DecidableEq

/-- A box without a batch index, as found in a per-image list of boxes. -/
structure Box4 where
  x1 : ℚ
  y1 : ℚ
  x2 : ℚ
  y2 : ℚ
deriving DecidableEq

/-- Nested-list representation of a 4D tensor. -/
abbrev Tensor4 (α : Type) := List (List (List (List α)))

/-- Value of a 4D tensor at an index, with a default outside bounds. -/
def at4 {α : Type} (t : Tensor4 α) (d : α) (i j k l : ℕ) : α :=
  (((t.getD i []).getD j []).getD k []).getD l d

/-- Shape predicate for the nested-list tensors. -/
def HasShape4 {α : Type} (t : Tensor4 α) (n c h w : ℕ) : Prop :=
  t.length = n ∧ ∀ a ∈ t, a.length = c ∧ ∀ b ∈ a, b.length = h ∧ ∀ e ∈ b, e.length = w

/-- Errors raised by the native kernels (spec section 7). -/
inductive KernelError where
  | shapeMismatch
  | outOfRangeBatchIndex
deriving DecidableEq

/-- Modelled from the spec: minimum region size clamp of the Region
Normalizer, one feature-map unit. -/
def minSize : ℚ := 1

/-- A region after normalization into feature-map coordinates. -/
structure NormRoi where
  b : ℕ
  x1 : ℚ
  y1 : ℚ
  roiW : ℚ
  roiH : ℚ
deriving DecidableEq

/-- Modelled from the spec: the Region Normalizer (section 4.1), missing
from src together with the native kernels.  Coordinates are scaled by
spatial_scale and the width and height are clamped below by minSize. -/
def normalizeRegion (scale : ℚ) (r : Roi) : NormRoi :=
  let x1 := r.x1 * scale
  let y1 := r.y1 * scale
  let x2 := r.x2 * scale
  let y2 := r.y2 * scale
  { b := r.batchIdx.toNat
    x1 := x1
    y1 := y1
    roiW := max (x2 - x1) minSize
    roiH := max (y2 - y1) minSize }

/-- Modelled from the spec: the Channel Group Mapper (section 4.2). -/
def channelMap (c ph pw pooledH pooledW : ℕ) : ℕ :=
  c * (pooledH * pooledW) + ph * pooledW + pw

/-- Number of output channels: C divided by pooled_height times pooled_width. -/
def outChannels (C pooledH pooledW : ℕ) : ℕ := C / (pooledH * pooledW)

/-- Modelled from the spec: the rounded pixel rectangle of a pooling bin
(section 4.3 steps 1-2): floor the start, ceil the end, clamp both into
[0, H] and [0, W].  Returned as natural bounds (hstart, hend, wstart, wend). -/
def binRect (nr : NormRoi) (ph pw pooledH pooledW H W : ℕ) : ℕ × ℕ × ℕ × ℕ :=
  let binH := nr.roiH / (pooledH : ℚ)
  let binW := nr.roiW / (pooledW : ℚ)
  ((min (max ⌊nr.y1 + (ph : ℚ) * binH⌋ 0) (H : ℤ)).toNat,
   (min (max ⌈nr.y1 + ((ph : ℚ) + 1) * binH⌉ 0) (H : ℤ)).toNat,
   (min (max ⌊nr.x1 + (pw : ℚ) * binW⌋ 0) (W : ℤ)).toNat,
   (min (max ⌈nr.x1 + ((pw : ℚ) + 1) * binW⌉ 0) (W : ℤ)).toNat)

/-- Modelled from the spec: one output value of PS-RoI Pool Forward
(section 4.3): the mean of the feature map over the rounded bin rectangle in
the mapped channel, or zero when the rectangle is empty. -/
def poolBinValue (input : FeatureMap) (nr : NormRoi) (c ph pw pooledH pooledW : ℕ) : ℚ :=
  let ch := channelMap c ph pw pooledH pooledW
  match binRect nr ph pw pooledH pooledW input.H input.W with
  | (hs, he, ws, we) =>
    if hs < he ∧ ws < we then
      (((List.range (he - hs)).map fun dy =>
        (((List.range (we - ws)).map fun dx =>
          input.data nr.b ch (hs + dy) (ws + dx)).sum)).sum)
        / (((he - hs) * (we - ws) : ℕ) : ℚ)
    else 0

/-- Modelled from the spec: the Output tensor PS-RoI Pool Forward builds,
one pool bin value per region, output channel and bin. -/
def poolOutTensor (input : FeatureMap) (rois : List Roi) (scale : ℚ)
    (pooledH pooledW : ℕ) : Tensor4 ℚ :=
  rois.map fun r =>
    (List.range (outChannels input.C pooledH pooledW)).map fun c =>
      (List.range pooledH).map fun ph =>
        (List.range pooledW).map fun pw =>
          poolBinValue input (normalizeRegion scale r) c ph pw pooledH pooledW

/-- Modelled from the spec: the ChannelMapping side-tensor both forward
kernels build, recording the mapped input channel group index of every
output element. -/
def cmTensor (C : ℕ) (rois : List Roi) (pooledH pooledW : ℕ) : Tensor4 ℕ :=
  rois.map fun _ =>
    (List.range (outChannels C pooledH pooledW)).map fun c =>
      (List.range pooledH).map fun ph =>
        (List.range pooledW).map fun pw =>
          channelMap c ph pw pooledH pooledW

/-- Modelled from the spec: the native kernel ps_roi_pool_forward, missing
from src (reached through the lazily imported handle).  Checks the channel
divisibility precondition and the batch-index range before any computation,
then produces the output tensor and the channel mapping. -/
def ps_roi_pool_forward (input : FeatureMap) (rois : List Roi) (scale : ℚ)
    (pooledH pooledW : ℕ) : Except KernelError (Tensor4 ℚ × Tensor4 ℕ) :=
  if pooledH * pooledW ∣ input.C then
    if ∀ r ∈ rois, 0 ≤ r.batchIdx ∧ r.batchIdx < (input.N : ℤ) then
      Except.ok (poolOutTensor input rois scale pooledH pooledW,
        cmTensor input.C rois pooledH pooledW)
    else Except.error KernelError.outOfRangeBatchIndex
  else Except.error KernelError.shapeMismatch

/-- Default region, used as the getD fallback when zipping region lists. -/
def dRoi : Roi := ⟨0, 0, 0, 0, 0⟩

/-- Slice of a 4D rational tensor at a fixed leading index. -/
def gradSliceOf (t : Tensor4 ℚ) (k : ℕ) : ℕ → ℕ → ℕ → ℚ :=
  fun c ph pw => at4 t 0 k c ph pw

/-- Slice of a 4D natural tensor at a fixed leading index. -/
def cmSliceOf (t : Tensor4 ℕ) (k : ℕ) : ℕ → ℕ → ℕ → ℕ :=
  fun c ph pw => at4 t 0 k c ph pw

/-- A region together with its incoming gradient slice and its saved
channel-mapping slice, the per-region data of a backward pass. -/
abbrev RegionData := Roi × (ℕ → ℕ → ℕ → ℚ) × (ℕ → ℕ → ℕ → ℕ)

/-- Modelled from the spec: the gradient contribution of a single region to
one GradInput cell in PS-RoI Pool Backward (section 4.4): for every bin of
the region whose saved mapped channel is this cell's channel and whose
rounded rectangle contains this cell, the bin gradient divided by the
rectangle area. -/
def poolRegionGrad (scale : ℚ) (pooledH pooledW H W oc : ℕ)
    (reg : RegionData) (b ch y x : ℕ) : ℚ :=
  let nr := normalizeRegion scale reg.1
  if nr.b = b then
    (((List.range oc).map fun c =>
      (((List.range pooledH).map fun ph =>
        (((List.range pooledW).map fun pw =>
          if reg.2.2 c ph pw = ch then
            match binRect nr ph pw pooledH pooledW H W with
            | (hs, he, ws, we) =>
              if hs ≤ y ∧ y < he ∧ ws ≤ x ∧ x < we then
                reg.2.1 c ph pw / (((he - hs) * (we - ws) : ℕ) : ℚ)
              else 0
          else 0).sum)).sum)).sum)
  else 0

/-- Modelled from the spec: additive accumulation of the pool gradient
contributions of a list of regions into one GradInput cell. -/
def psRoiPoolGradAcc (scale : ℚ) (pooledH pooledW H W oc : ℕ)
    (regions : List RegionData) (b ch y x : ℕ) : ℚ :=
  (regions.map fun reg => poolRegionGrad scale pooledH pooledW H W oc reg b ch y x).sum

/-- Modelled from the spec: the native kernel ps_roi_pool_backward, missing
from src.  Produces a GradInput tensor of the original input shape in which
every cell accumulates, additively, the contributions of all regions. -/
def ps_roi_pool_backward (gradOut : Tensor4 ℚ) (rois : List Roi) (cm : Tensor4 ℕ)
    (scale : ℚ) (pooledH pooledW bs chN H W : ℕ) : Tensor4 ℚ :=
  let regions := (List.range rois.length).map fun k =>
    (rois.getD k dRoi, gradSliceOf gradOut k, cmSliceOf cm k)
  let oc := outChannels chN pooledH pooledW
  (List.range bs).map fun b =>
    (List.range chN).map fun ch =>
      (List.range H).map fun y =>
        (List.range W).map fun x =>
          psRoiPoolGradAcc scale pooledH pooledW H W oc regions b ch y x

/-- Modelled from the spec: the sampling grid dimension of one Align bin
(section 4.5 step 2): the sampling ratio when positive, else the ceiling of
the bin size, at least one. -/
def gridDim (sr : ℤ) (binSize : ℚ) : ℕ :=
  if 0 < sr then sr.toNat else max 1 ⌈binSize⌉.toNat

/-- Modelled from the spec: the coordinates of sample point (iy, ix) of bin
(ph, pw), placed at bin-relative position ((iy + 0.5) / grid, (ix + 0.5) / grid)
scaled into the bin rectangle. -/
def samplePoint (nr : NormRoi) (ph pw pooledH pooledW : ℕ) (sr : ℤ) (iy ix : ℕ) : ℚ × ℚ :=
  let binH := nr.roiH / (pooledH : ℚ)
  let binW := nr.roiW / (pooledW : ℚ)
  let gh := gridDim sr binH
  let gw := gridDim sr binW
  (nr.y1 + (ph : ℚ) * binH + ((iy : ℚ) + 1 / 2) * binH / (gh : ℚ),
   nr.x1 + (pw : ℚ) * binW + ((ix : ℚ) + 1 / 2) * binW / (gw : ℚ))

/-- Modelled from the spec: the full sampling grid of one Align bin, a list
of grid_h times grid_w sample points. -/
def alignSamplePoints (nr : NormRoi) (ph pw pooledH pooledW : ℕ) (sr : ℤ) : List (ℚ × ℚ) :=
  let gh := gridDim sr (nr.roiH / (pooledH : ℚ))
  let gw := gridDim sr (nr.roiW / (pooledW : ℚ))
  ((List.range gh).map fun iy =>
    (List.range gw).map fun ix =>
      samplePoint nr ph pw pooledH pooledW sr iy ix).flatten

/-- Modelled from the spec: bilinear interpolation over a 2D slice at a real
point, the four integer neighbors weighted by the fractional parts and
out-of-bounds neighbors contributing value zero (clamp-to-zero). -/
def bilinear (H W : ℕ) (f : ℕ → ℕ → ℚ) (y x : ℚ) : ℚ :=
  let yl : ℤ := ⌊y⌋
  let xl : ℤ := ⌊x⌋
  let ly : ℚ := y - (yl : ℚ)
  let lx : ℚ := x - (xl : ℚ)
  let v : ℤ → ℤ → ℚ := fun yy xx =>
    if 0 ≤ yy ∧ yy < (H : ℤ) ∧ 0 ≤ xx ∧ xx < (W : ℤ) then f yy.toNat xx.toNat else 0
  (1 - ly) * (1 - lx) * v yl xl + (1 - ly) * lx * v yl (xl + 1)
    + ly * (1 - lx) * v (yl + 1) xl + ly * lx * v (yl + 1) (xl + 1)

/-- Modelled from the spec: one output value of PS-RoI Align Forward
(section 4.5): the arithmetic mean of the bilinear samples of the bin in the
mapped channel. -/
def alignBinValue (input : FeatureMap) (nr : NormRoi) (c ph pw pooledH pooledW : ℕ)
    (sr : ℤ) : ℚ :=
  let ch := channelMap c ph pw pooledH pooledW
  let pts := alignSamplePoints nr ph pw pooledH pooledW sr
  (pts.map fun p => bilinear input.H input.W (input.data nr.b ch) p.1 p.2).sum
    / (pts.length : ℚ)

/-- Modelled from the spec: the Output tensor PS-RoI Align Forward builds,
one bilinear-sampled bin value per region, output channel and bin. -/
def alignOutTensor (input : FeatureMap) (rois : List Roi) (scale : ℚ)
    (pooledH pooledW : ℕ) (sr : ℤ) : Tensor4 ℚ :=
  rois.map fun r =>
    (List.range (outChannels input.C pooledH pooledW)).map fun c =>
      (List.range pooledH).map fun ph =>
        (List.range pooledW).map fun pw =>
          alignBinValue input (normalizeRegion scale r) c ph pw pooledH pooledW sr

/-- Modelled from the spec: the native kernel ps_roi_align_forward, missing
from src; same preconditions and tensor layout as the pool kernel, bin
values computed by bilinear grid sampling. -/
def ps_roi_align_forward (input : FeatureMap) (rois : List Roi) (scale : ℚ)
    (pooledH pooledW : ℕ) (sr : ℤ) : Except KernelError (Tensor4 ℚ × Tensor4 ℕ) :=
  if pooledH * pooledW ∣ input.C then
    if ∀ r ∈ rois, 0 ≤ r.batchIdx ∧ r.batchIdx < (input.N : ℤ) then
      Except.ok (alignOutTensor input rois scale pooledH pooledW sr,
        cmTensor input.C rois pooledH pooledW)
    else Except.error KernelError.outOfRangeBatchIndex
  else Except.error KernelError.shapeMismatch

/-- Modelled from the spec: the bilinear weight a sample point at (py, px)
places on the integer cell (y, x) - nonzero only when (y, x) is one of the
four neighbors of the point. -/
def bilinearWeight (py px : ℚ) (y x : ℕ) : ℚ :=
  let yl : ℤ := ⌊py⌋
  let xl : ℤ := ⌊px⌋
  let ly : ℚ := py - (yl : ℚ)
  let lx : ℚ := px - (xl : ℚ)
  (if (y : ℤ) = yl ∧ (x : ℤ) = xl then (1 - ly) * (1 - lx) else 0)
    + (if (y : ℤ) = yl ∧ (x : ℤ) = xl + 1 then (1 - ly) * lx else 0)
    + (if (y : ℤ) = yl + 1 ∧ (x : ℤ) = xl then ly * (1 - lx) else 0)
    + (if (y : ℤ) = yl + 1 ∧ (x : ℤ) = xl + 1 then ly * lx else 0)

/-- Modelled from the spec: the gradient contribution of a single region to
one GradInput cell in PS-RoI Align Backward (section 4.6): every sample
point of every bin mapped to this cell's channel distributes its bin
gradient divided by the sample count through its bilinear weight on the
cell. -/
def alignRegionGrad (scale : ℚ) (sr : ℤ) (pooledH pooledW oc : ℕ)
    (reg : RegionData) (b ch y x : ℕ) : ℚ :=
  let nr := normalizeRegion scale reg.1
  if nr.b = b then
    (((List.range oc).map fun c =>
      (((List.range pooledH).map fun ph =>
        (((List.range pooledW).map fun pw =>
          if reg.2.2 c ph pw = ch then
            let pts := alignSamplePoints nr ph pw pooledH pooledW sr
            (pts.map fun p =>
              reg.2.1 c ph pw / (pts.length : ℚ) * bilinearWeight p.1 p.2 y x).sum
          else 0).sum)).sum)).sum)
  else 0

/-- Modelled from the spec: additive accumulation of the align gradient
contributions of a list of regions into one GradInput cell. -/
def psRoiAlignGradAcc (scale : ℚ) (sr : ℤ) (pooledH pooledW oc : ℕ)
    (regions : List RegionData) (b ch y x : ℕ) : ℚ :=
  (regions.map fun reg => alignRegionGrad scale sr pooledH pooledW oc reg b ch y x).sum

/-- Modelled from the spec: the native kernel ps_roi_align_backward, missing
from src.  Produces a GradInput tensor of the original input shape in which
every cell accumulates, additively, the contributions of all regions. -/
def ps_roi_align_backward (gradOut : Tensor4 ℚ) (rois : List Roi) (cm : Tensor4 ℕ)
    (scale : ℚ) (pooledH pooledW : ℕ) (sr : ℤ) (bs chN H W : ℕ) : Tensor4 ℚ :=
  let regions := (List.range rois.length).map fun k =>
    (rois.getD k dRoi, gradSliceOf gradOut k, cmSliceOf cm k)
  let oc := outChannels chN pooledH pooledW
  (List.range bs).map fun b =>
    (List.range chN).map fun ch =>
      (List.range H).map fun y =>
        (List.range W).map fun x =>
          psRoiAlignGradAcc scale sr pooledH pooledW oc regions b ch y x

/-- Python-level errors raised by the glue layer before the kernel runs. -/
inductive PyError where
  | typeError
deriving DecidableEq

/-- Errors escaping a glue-layer forward call: a Python error of the glue
itself or an error of the native kernel. -/
inductive FwdError where
  | py : PyError → FwdError
  | kernel : KernelError → FwdError
deriving DecidableEq

/-- The output_size argument as the docstring admits it: a single int or a
pair (height, width). -/
inductive OutputSize where
  | int : ℕ → OutputSize
  | pair : ℕ → ℕ → OutputSize
deriving DecidableEq

/-- Embeds torch.nn.modules.utils._pair: an int is duplicated, a pair is
kept. -/
def pairOf : OutputSize → ℕ × ℕ
  | OutputSize.int n => (n, n)
  | OutputSize.pair a b => (a, b)

/-- Embeds the Python subscript output_size[i]: an int is not subscriptable
and raises TypeError; a pair yields its components. -/
def subscriptOS : OutputSize → ℕ → Except PyError ℕ
  | OutputSize.int _, _ => Except.error PyError.typeError
  | OutputSize.pair a b, i => Except.ok (if i = 0 then a else b)

/-- The context bundle the pool autograd Function carries from forward to
backward: the _pair-normalized output size, the spatial scale, the input
shape, and the two tensors stored by save_for_backward. -/
structure PoolCtx where
  output_size : ℕ × ℕ
  spatial_scale : ℚ
  input_shape : ℕ × ℕ × ℕ × ℕ
  saved_rois : List Roi
  saved_channel_mapping : Tensor4 ℕ
deriving DecidableEq

/-- The context bundle of the align autograd Function; additionally carries
the sampling ratio. -/
structure AlignCtx where
  output_size : ℕ × ℕ
  spatial_scale : ℚ
  sr : ℤ
  input_shape : ℕ × ℕ × ℕ × ℕ
  saved_rois : List Roi
  saved_channel_mapping : Tensor4 ℕ
deriving DecidableEq

/-- Shape of a feature map as stored in ctx.input_shape. -/
def shapeOf (input : FeatureMap) : ℕ × ℕ × ℕ × ℕ := (input.N, input.C, input.H, input.W)

/-- Embeds _PSRoIPoolFunction.forward from ps_roi_pool.py: normalizes
output_size into the context with _pair, subscripts the raw output_size
argument to call the kernel, saves rois and the returned channel mapping,
and returns the kernel output together with the context. -/
def PSRoIPoolFunction.forward (input : FeatureMap) (rois : List Roi)
    (output_size : OutputSize) (spatial_scale : ℚ) :
    Except FwdError (Tensor4 ℚ × PoolCtx) :=
  let ctxOutputSize := pairOf output_size
  match subscriptOS output_size 0, subscriptOS output_size 1 with
  | Except.error e, _ => Except.error (FwdError.py e)
  | _, Except.error e => Except.error (FwdError.py e)
  | Except.ok o0, Except.ok o1 =>
    match ps_roi_pool_forward input rois spatial_scale o0 o1 with
    | Except.error e => Except.error (FwdError.kernel e)
    | Except.ok res =>
        Except.ok (res.1, ⟨ctxOutputSize, spatial_scale, shapeOf input, rois, res.2⟩)

/-- Embeds _PSRoIPoolFunction.backward from ps_roi_pool.py: reads the saved
tensors and parameters from the context, calls the backward kernel, and
returns the gradient tuple (grad_input, None, None, None) for the arguments
(input, rois, output_size, spatial_scale). -/
def PSRoIPoolFunction.backward (ctx : PoolCtx) (gradOutput : Tensor4 ℚ) :
    Option (Tensor4 ℚ) × Option (Tensor4 ℚ) × Option Unit × Option Unit :=
  match ctx.input_shape with
  | (bs, ch, h, w) =>
    (some (ps_roi_pool_backward gradOutput ctx.saved_rois ctx.saved_channel_mapping
        ctx.spatial_scale ctx.output_size.1 ctx.output_size.2 bs ch h w),
     none, none, none)

/-- Embeds _PSRoIAlignFunction.forward from ps_roi_align.py. -/
def PSRoIAlignFunction.forward (input : FeatureMap) (rois : List Roi)
    (output_size : OutputSize) (spatial_scale : ℚ) (sr : ℤ) :
    Except FwdError (Tensor4 ℚ × AlignCtx) :=
  let ctxOutputSize := pairOf output_size
  match subscriptOS output_size 0, subscriptOS output_size 1 with
  | Except.error e, _ => Except.error (FwdError.py e)
  | _, Except.error e => Except.error (FwdError.py e)
  | Except.ok o0, Except.ok o1 =>
    match ps_roi_align_forward input rois spatial_scale o0 o1 sr with
    | Except.error e => Except.error (FwdError.kernel e)
    | Except.ok res =>
        Except.ok (res.1, ⟨ctxOutputSize, spatial_scale, sr, shapeOf input, rois, res.2⟩)

/-- Embeds _PSRoIAlignFunction.backward from ps_roi_align.py: the gradient
tuple is (grad_input, None, None, None, None) for the arguments
(input, rois, output_size, spatial_scale, sampling_ratio). -/
def PSRoIAlignFunction.backward (ctx : AlignCtx) (gradOutput : Tensor4 ℚ) :
    Option (Tensor4 ℚ) × Option (Tensor4 ℚ) × Option Unit × Option Unit × Option Unit :=
  match ctx.input_shape with
  | (bs, ch, h, w) =>
    (some (ps_roi_align_backward gradOutput ctx.saved_rois ctx.saved_channel_mapping
        ctx.spatial_scale ctx.output_size.1 ctx.output_size.2 ctx.sr bs ch h w),
     none, none, none, none)

/-- The boxes argument of the public functions: either a single [K, 5]
region tensor or a per-image list of [L, 4] box arrays. -/
inductive Boxes where
  | tensor : List Roi → Boxes
  | list : List (List Box4) → Boxes

/-- Modelled from the spec: convert_boxes_to_roi_format from ops._utils,
missing from src - normalizes a per-image list of box arrays into a single
region tensor by prepending the batch index of each image to its boxes. -/
def convert_boxes_to_roi_format (boxes : List (List Box4)) : List Roi :=
  ((List.range boxes.length).map fun i =>
    (boxes.getD i []).map fun bx => Roi.mk (i : ℤ) bx.x1 bx.y1 bx.x2 bx.y2).flatten

/-- Embeds the public ps_roi_pool from ps_roi_pool.py: a tensor boxes
argument is passed unchanged, a list is first converted to roi format. -/
def ps_roi_pool (input : FeatureMap) (boxes : Boxes) (output_size : OutputSize)
    (spatial_scale : ℚ) : Except FwdError (Tensor4 ℚ × PoolCtx) :=
  match boxes with
  | Boxes.tensor t => PSRoIPoolFunction.forward input t output_size spatial_scale
  | Boxes.list ls =>
      PSRoIPoolFunction.forward input (convert_boxes_to_roi_format ls) output_size spatial_scale

/-- Embeds the public ps_roi_align from ps_roi_align.py. -/
def ps_roi_align (input : FeatureMap) (boxes : Boxes) (output_size : OutputSize)
    (spatial_scale : ℚ) (sr : ℤ) : Except FwdError (Tensor4 ℚ × AlignCtx) :=
  match boxes with
  | Boxes.tensor t => PSRoIAlignFunction.forward input t output_size spatial_scale sr
  | Boxes.list ls =>
      PSRoIAlignFunction.forward input (convert_boxes_to_roi_format ls) output_size spatial_scale sr

/-! Helper lemmas about reading the nested-list tensors built by the
kernels. -/

lemma getD_map_of_lt {α β : Type _} (l : List α) (f : α → β) (e : β) {k : ℕ}
    (h : k < l.length) (d : α) : (l.map f).getD k e = f (l.getD k d) := by
  rw [List.getD_eq_getElem _ _ (by simpa using h), List.getD_eq_getElem _ _ h]
  simp

lemma getD_map_range {β : Type _} (f : ℕ → β) (e : β) {n k : ℕ} (h : k < n) :
    ((List.range n).map f).getD k e = f k := by
  rw [List.getD_eq_getElem _ _ (by simpa using h)]
  simp

/-- The fixed concrete feature map of the spec section 8 scenario: shape
[1, 4, 4, 4]. -/
def ex4Input : FeatureMap := ⟨1, 4, 4, 4, fun _ c y x => (c : ℚ) + (y : ℚ) + (x : ℚ)⟩

/-- The single region [0, 0, 0, 4, 4] of the spec section 8 scenario. -/
def ex4Roi : Roi := ⟨0, 0, 0, 4, 4⟩

/-- C6: a tensor boxes argument is passed to the operator unchanged, and a
per-image list of box arrays is first normalized into a single region list
whose rows carry the image index prepended to the box coordinates. -/
theorem boxes_normalization (input : FeatureMap) (osz : OutputSize) (scale : ℚ)
    (sr : ℤ) (t : List Roi) (ls : List (List Box4)) (r : Roi) :
    ps_roi_pool input (Boxes.tensor t) osz scale
        = PSRoIPoolFunction.forward input t osz scale ∧
    ps_roi_align input (Boxes.tensor t) osz scale sr
        = PSRoIAlignFunction.forward input t osz scale sr ∧
    ps_roi_pool input (Boxes.list ls) osz scale
        = PSRoIPoolFunction.forward input (convert_boxes_to_roi_format ls) osz scale ∧
    ps_roi_align input (Boxes.list ls) osz scale sr
        = PSRoIAlignFunction.forward input (convert_boxes_to_roi_format ls) osz scale sr ∧
    (r ∈ convert_boxes_to_roi_format ls ↔
      ∃ i, i < ls.length ∧ ∃ bx ∈ ls.getD i [],
        r = ⟨(i : ℤ), bx.x1, bx.y1, bx.x2, bx.y2⟩) := by
  refine ⟨rfl, rfl, rfl, rfl, ?_⟩
  simp only [convert_boxes_to_roi_format, List.mem_flatten, List.mem_map, List.mem_range]
  constructor
  · rintro ⟨l, ⟨i, hi, rfl⟩, hr⟩
    rcases List.mem_map.mp hr with ⟨bx, hbx, rfl⟩
    exact ⟨i, hi, bx, hbx, rfl⟩
  · rintro ⟨i, hi, bx, hbx, rfl⟩
    exact ⟨_, ⟨i, hi, rfl⟩, List.mem_map.mpr ⟨bx, hbx, rfl⟩⟩

/-- C7: the backward pass of both operators returns None gradients for the
non-tensor arguments output_size and spatial_scale, and for Align also for
sampling_ratio. -/
theorem backward_none_for_config_args (ctxP : PoolCtx) (gP : Tensor4 ℚ)
    (ctxA : AlignCtx) (gA : Tensor4 ℚ) :
    (PSRoIPoolFunction.backward ctxP gP).2.2.1 = none ∧
    (PSRoIPoolFunction.backward ctxP gP).2.2.2 = none ∧
    (PSRoIAlignFunction.backward ctxA gA).2.2.1 = none ∧
    (PSRoIAlignFunction.backward ctxA gA).2.2.2.1 = none ∧
    (PSRoIAlignFunction.backward ctxA gA).2.2.2.2 = none := by
  refine ⟨?_, ?_, ?_, ?_, ?_⟩ <;>
    simp [PSRoIPoolFunction.backward, PSRoIAlignFunction.backward]

/-- C9: the backward pass of both operators returns a None gradient for the
rois tensor argument - no gradient propagates to the region coordinates. -/
theorem backward_none_for_rois (ctxP : PoolCtx) (gP : Tensor4 ℚ)
    (ctxA : AlignCtx) (gA : Tensor4 ℚ) :
    (PSRoIPoolFunction.backward ctxP gP).2.1 = none ∧
    (PSRoIAlignFunction.backward ctxA gA).2.1 = none := by
  constructor <;> simp [PSRoIPoolFunction.backward, PSRoIAlignFunction.backward]

/-- C8: when the channel count is not divisible by pooled_height times
pooled_width, both forward kernels fail with ShapeMismatch before any
computation and no output is produced, and the glue forward surfaces the
same error. -/
theorem shape_mismatch_rejected (input : FeatureMap) (rois : List Roi) (scale : ℚ)
    (pooledH pooledW : ℕ) (sr : ℤ)
    (h : ¬ (pooledH * pooledW ∣ input.C)) :
    ps_roi_pool_forward input rois scale pooledH pooledW
        = Except.error KernelError.shapeMismatch ∧
    ps_roi_align_forward input rois scale pooledH pooledW sr
        = Except.error KernelError.shapeMismatch ∧
    PSRoIPoolFunction.forward input rois (OutputSize.pair pooledH pooledW) scale
        = Except.error (FwdError.kernel KernelError.shapeMismatch) ∧
    PSRoIAlignFunction.forward input rois (OutputSize.pair pooledH pooledW) scale sr
        = Except.error (FwdError.kernel KernelError.shapeMismatch) := by
  have hp : ps_roi_pool_forward input rois scale pooledH pooledW
      = Except.error KernelError.shapeMismatch := by
    simp [ps_roi_pool_forward, h]
  have ha : ps_roi_align_forward input rois scale pooledH pooledW sr
      = Except.error KernelError.shapeMismatch := by
    simp [ps_roi_align_forward, h]
  refine ⟨hp, ha, ?_, ?_⟩ <;>
    simp [PSRoIPoolFunction.forward, PSRoIAlignFunction.forward, subscriptOS, hp, ha]

/-- Witness for C8: with 3 input channels and a 2 by 2 output size both
operators reject the call with ShapeMismatch. -/
theorem shape_mismatch_rejected_witness :
    ps_roi_pool_forward ⟨1, 3, 4, 4, fun _ _ _ _ => 0⟩ [ex4Roi] 1 2 2
        = Except.error KernelError.shapeMismatch ∧
    ps_roi_align_forward ⟨1, 3, 4, 4, fun _ _ _ _ => 0⟩ [ex4Roi] 1 2 2 (-1)
        = Except.error KernelError.shapeMismatch ∧
    PSRoIPoolFunction.forward ⟨1, 3, 4, 4, fun _ _ _ _ => 0⟩ [ex4Roi] (OutputSize.pair 2 2) 1
        = Except.error (FwdError.kernel KernelError.shapeMismatch) ∧
    PSRoIAlignFunction.forward ⟨1, 3, 4, 4, fun _ _ _ _ => 0⟩ [ex4Roi] (OutputSize.pair 2 2) 1 (-1)
        = Except.error (FwdError.kernel KernelError.shapeMismatch) :=
  shape_mismatch_rejected ⟨1, 3, 4, 4, fun _ _ _ _ => 0⟩ [ex4Roi] 1 2 2 (-1) (by decide)

/-- Shape of the four-level nested map-over-ranges tensors the forward
kernels build. -/
lemma hasShape4_build {α β : Type _} (l : List β) (g : β → ℕ → ℕ → ℕ → α) (c h w : ℕ) :
    HasShape4 (l.map fun r => (List.range c).map fun i => (List.range h).map fun j =>
      (List.range w).map fun m => g r i j m) l.length c h w := by
  refine ⟨by simp, ?_⟩
  intro a ha
  rcases List.mem_map.mp ha with ⟨r, _, rfl⟩
  refine ⟨by simp, ?_⟩
  intro bl hbl
  rcases List.mem_map.mp hbl with ⟨i, _, rfl⟩
  refine ⟨by simp, ?_⟩
  intro d hd
  rcases List.mem_map.mp hd with ⟨j, _, rfl⟩
  simp

/-- Reading the channel-mapping tensor at an in-range index yields the
channel-map formula. -/
lemma at4_cmTensor (C : ℕ) (rois : List Roi) (pooledH pooledW k c ph pw : ℕ)
    (hk : k < rois.length) (hc : c < outChannels C pooledH pooledW)
    (hph : ph < pooledH) (hpw : pw < pooledW) :
    at4 (cmTensor C rois pooledH pooledW) 0 k c ph pw
      = channelMap c ph pw pooledH pooledW := by
  unfold cmTensor at4
  rw [getD_map_of_lt _ _ _ hk dRoi, getD_map_range _ _ hc, getD_map_range _ _ hph,
    getD_map_range _ _ hpw]

/-- C1: the channel recorded in ChannelMapping for output channel c and bin
(ph, pw) is c * (pooled_height * pooled_width) + ph * pooled_width + pw for
both operators; in the concrete [1,4,4,4] scenario with 2 by 2 bins and one
full-image region the four bins map to channels 0, 1, 2 and 3 in row-major
order. -/
theorem channel_mapping_formula (input : FeatureMap) (rois : List Roi) (scale : ℚ)
    (pooledH pooledW k c ph pw : ℕ) (sr : ℤ)
    (hdvd : pooledH * pooledW ∣ input.C)
    (hb : ∀ r ∈ rois, 0 ≤ r.batchIdx ∧ r.batchIdx < (input.N : ℤ))
    (hk : k < rois.length) (hc : c < outChannels input.C pooledH pooledW)
    (hph : ph < pooledH) (hpw : pw < pooledW) :
    (ps_roi_pool_forward input rois scale pooledH pooledW
      = Except.ok (poolOutTensor input rois scale pooledH pooledW,
          cmTensor input.C rois pooledH pooledW)) ∧
    (ps_roi_align_forward input rois scale pooledH pooledW sr
      = Except.ok (alignOutTensor input rois scale pooledH pooledW sr,
          cmTensor input.C rois pooledH pooledW)) ∧
    at4 (cmTensor input.C rois pooledH pooledW) 0 k c ph pw
      = channelMap c ph pw pooledH pooledW ∧
    at4 (cmTensor 4 [ex4Roi] 2 2) 0 0 0 0 0 = 0 ∧
    at4 (cmTensor 4 [ex4Roi] 2 2) 0 0 0 0 1 = 1 ∧
    at4 (cmTensor 4 [ex4Roi] 2 2) 0 0 0 1 0 = 2 ∧
    at4 (cmTensor 4 [ex4Roi] 2 2) 0 0 0 1 1 = 3 := by
  refine ⟨?_, ?_, at4_cmTensor input.C rois pooledH pooledW k c ph pw hk hc hph hpw,
    by decide, by decide, by decide, by decide⟩
  · unfold ps_roi_pool_forward
    rw [if_pos hdvd, if_pos hb]
  · unfold ps_roi_align_forward
    rw [if_pos hdvd, if_pos hb]

/-- Witness for C1 at region 0, output channel 0, bin (1, 0) of the
concrete [1,4,4,4] scenario. -/
theorem channel_mapping_formula_witness :
    ps_roi_pool_forward ex4Input [ex4Roi] 1 2 2
      = Except.ok (poolOutTensor ex4Input [ex4Roi] 1 2 2, cmTensor ex4Input.C [ex4Roi] 2 2) ∧
    at4 (cmTensor ex4Input.C [ex4Roi] 2 2) 0 0 0 1 0 = channelMap 0 1 0 2 2 :=
  let h := channel_mapping_formula ex4Input [ex4Roi] 1 2 2 0 0 1 0 (-1)
    (by decide) (by decide) (by decide) (by decide) (by decide) (by decide)
  ⟨h.1, h.2.2.1⟩

/-- C2: for every valid input the forward pass of both operators returns an
output of shape [K, C / (pooled_h * pooled_w), pooled_h, pooled_w] (and a
channel mapping of the same shape). -/
theorem forward_output_shape (input : FeatureMap) (rois : List Roi) (scale : ℚ)
    (pooledH pooledW : ℕ) (sr : ℤ)
    (hdvd : pooledH * pooledW ∣ input.C)
    (hb : ∀ r ∈ rois, 0 ≤ r.batchIdx ∧ r.batchIdx < (input.N : ℤ)) :
    (ps_roi_pool_forward input rois scale pooledH pooledW
      = Except.ok (poolOutTensor input rois scale pooledH pooledW,
          cmTensor input.C rois pooledH pooledW)) ∧
    (ps_roi_align_forward input rois scale pooledH pooledW sr
      = Except.ok (alignOutTensor input rois scale pooledH pooledW sr,
          cmTensor input.C rois pooledH pooledW)) ∧
    HasShape4 (poolOutTensor input rois scale pooledH pooledW)
      rois.length (outChannels input.C pooledH pooledW) pooledH pooledW ∧
    HasShape4 (alignOutTensor input rois scale pooledH pooledW sr)
      rois.length (outChannels input.C pooledH pooledW) pooledH pooledW ∧
    HasShape4 (cmTensor input.C rois pooledH pooledW)
      rois.length (outChannels input.C pooledH pooledW) pooledH pooledW ∧
    (ps_roi_pool input (Boxes.tensor rois) (OutputSize.pair pooledH pooledW) scale
      = Except.ok (poolOutTensor input rois scale pooledH pooledW,
          ⟨(pooledH, pooledW), scale, shapeOf input, rois,
            cmTensor input.C rois pooledH pooledW⟩)) ∧
    (ps_roi_align input (Boxes.tensor rois) (OutputSize.pair pooledH pooledW) scale sr
      = Except.ok (alignOutTensor input rois scale pooledH pooledW sr,
          ⟨(pooledH, pooledW), scale, sr, shapeOf input, rois,
            cmTensor input.C rois pooledH pooledW⟩)) := by
  have hp : ps_roi_pool_forward input rois scale pooledH pooledW
      = Except.ok (poolOutTensor input rois scale pooledH pooledW,
          cmTensor input.C rois pooledH pooledW) := by
    unfold ps_roi_pool_forward
    rw [if_pos hdvd, if_pos hb]
  have ha : ps_roi_align_forward input rois scale pooledH pooledW sr
      = Except.ok (alignOutTensor input rois scale pooledH pooledW sr,
          cmTensor input.C rois pooledH pooledW) := by
    unfold ps_roi_align_forward
    rw [if_pos hdvd, if_pos hb]
  refine ⟨hp, ha, ?_, ?_, ?_, ?_, ?_⟩
  · exact hasShape4_build rois
      (fun r c ph pw => poolBinValue input (normalizeRegion scale r) c ph pw pooledH pooledW) _ _ _
  · exact hasShape4_build rois
      (fun r c ph pw => alignBinValue input (normalizeRegion scale r) c ph pw pooledH pooledW sr) _ _ _
  · exact hasShape4_build rois (fun _ c ph pw => channelMap c ph pw pooledH pooledW) _ _ _
  · simp [ps_roi_pool, PSRoIPoolFunction.forward, subscriptOS, hp, pairOf, shapeOf]
  · simp [ps_roi_align, PSRoIAlignFunction.forward, subscriptOS, ha, pairOf, shapeOf]

/-- Witness for C2 on the concrete [1,4,4,4] scenario: output shape
[1, 1, 2, 2]. -/
theorem forward_output_shape_witness :
    ps_roi_pool_forward ex4Input [ex4Roi] 1 2 2
      = Except.ok (poolOutTensor ex4Input [ex4Roi] 1 2 2, cmTensor ex4Input.C [ex4Roi] 2 2) ∧
    HasShape4 (poolOutTensor ex4Input [ex4Roi] 1 2 2) 1 1 2 2 :=
  let h := forward_output_shape ex4Input [ex4Roi] 1 2 2 (-1) (by decide) (by decide)
  ⟨h.1, h.2.2.1⟩

/-- C5: the pool and align autograd Functions carry exactly the
_pair-normalized output size, the spatial scale, the input shape, the rois
and the kernel-produced channel mapping from forward to backward, and
backward is a function of exactly those context fields applied to the
backward kernel. -/
theorem backward_consumes_saved_state (input : FeatureMap) (rois : List Roi)
    (a b : ℕ) (scale : ℚ) (sr : ℤ) (g : Tensor4 ℚ)
    (hdvd : a * b ∣ input.C)
    (hb : ∀ r ∈ rois, 0 ≤ r.batchIdx ∧ r.batchIdx < (input.N : ℤ)) :
    (PSRoIPoolFunction.forward input rois (OutputSize.pair a b) scale
      = Except.ok (poolOutTensor input rois scale a b,
          ⟨(a, b), scale, shapeOf input, rois, cmTensor input.C rois a b⟩)) ∧
    (∀ ctx : PoolCtx, PSRoIPoolFunction.backward ctx g
      = (some (ps_roi_pool_backward g ctx.saved_rois ctx.saved_channel_mapping
          ctx.spatial_scale ctx.output_size.1 ctx.output_size.2
          ctx.input_shape.1 ctx.input_shape.2.1 ctx.input_shape.2.2.1 ctx.input_shape.2.2.2),
         none, none, none)) ∧
    (PSRoIAlignFunction.forward input rois (OutputSize.pair a b) scale sr
      = Except.ok (alignOutTensor input rois scale a b sr,
          ⟨(a, b), scale, sr, shapeOf input, rois, cmTensor input.C rois a b⟩)) ∧
    (∀ ctx : AlignCtx, PSRoIAlignFunction.backward ctx g
      = (some (ps_roi_align_backward g ctx.saved_rois ctx.saved_channel_mapping
          ctx.spatial_scale ctx.output_size.1 ctx.output_size.2 ctx.sr
          ctx.input_shape.1 ctx.input_shape.2.1 ctx.input_shape.2.2.1 ctx.input_shape.2.2.2),
         none, none, none, none)) := by
  have hp : ps_roi_pool_forward input rois scale a b
      = Except.ok (poolOutTensor input rois scale a b, cmTensor input.C rois a b) := by
    unfold ps_roi_pool_forward
    rw [if_pos hdvd, if_pos hb]
  have ha : ps_roi_align_forward input rois scale a b sr
      = Except.ok (alignOutTensor input rois scale a b sr, cmTensor input.C rois a b) := by
    unfold ps_roi_align_forward
    rw [if_pos hdvd, if_pos hb]
  refine ⟨?_, ?_, ?_, ?_⟩
  · simp [PSRoIPoolFunction.forward, subscriptOS, hp, pairOf, shapeOf]
  · rintro ⟨os, sc, ⟨n, c, h, w⟩, rs, cm⟩
    rfl
  · simp [PSRoIAlignFunction.forward, subscriptOS, ha, pairOf, shapeOf]
  · rintro ⟨os, sc, s0, ⟨n, c, h, w⟩, rs, cm⟩
    rfl

/-- Witness for C5 on the concrete [1,4,4,4] scenario. -/
theorem backward_consumes_saved_state_witness :
    PSRoIPoolFunction.forward ex4Input [ex4Roi] (OutputSize.pair 2 2) 1
      = Except.ok (poolOutTensor ex4Input [ex4Roi] 1 2 2,
          ⟨(2, 2), 1, shapeOf ex4Input, [ex4Roi], cmTensor ex4Input.C [ex4Roi] 2 2⟩) ∧
    PSRoIPoolFunction.backward
        ⟨(2, 2), 1, shapeOf ex4Input, [ex4Roi], cmTensor ex4Input.C [ex4Roi] 2 2⟩ []
      = (some (ps_roi_pool_backward [] [ex4Roi] (cmTensor ex4Input.C [ex4Roi] 2 2)
          1 2 2 1 4 4 4), none, none, none) :=
  let h := backward_consumes_saved_state ex4Input [ex4Roi] 2 2 1 (-1) []
    (by decide) (by decide)
  ⟨h.1, h.2.1 ⟨(2, 2), 1, shapeOf ex4Input, [ex4Roi], cmTensor ex4Input.C [ex4Roi] 2 2⟩⟩

/-- C4: the sampling grid of one Align bin has exactly grid_h times grid_w
points, where each grid dimension equals the sampling ratio when it is
positive and otherwise the ceiling of the bin size, always at least one. -/
theorem align_sampling_grid_size (r : Roi) (scale : ℚ) (pooledH pooledW ph pw : ℕ)
    (sr : ℤ) (nr : NormRoi) (hnr : nr = normalizeRegion scale r)
    (hH : 0 < pooledH) (hW : 0 < pooledW) :
    (alignSamplePoints nr ph pw pooledH pooledW sr).length
        = gridDim sr (nr.roiH / (pooledH : ℚ)) * gridDim sr (nr.roiW / (pooledW : ℚ)) ∧
    (0 < sr → gridDim sr (nr.roiH / (pooledH : ℚ)) = sr.toNat
            ∧ gridDim sr (nr.roiW / (pooledW : ℚ)) = sr.toNat) ∧
    (sr ≤ 0 → gridDim sr (nr.roiH / (pooledH : ℚ)) = ⌈nr.roiH / (pooledH : ℚ)⌉.toNat
            ∧ gridDim sr (nr.roiW / (pooledW : ℚ)) = ⌈nr.roiW / (pooledW : ℚ)⌉.toNat) ∧
    1 ≤ gridDim sr (nr.roiH / (pooledH : ℚ)) ∧
    1 ≤ gridDim sr (nr.roiW / (pooledW : ℚ)) := by
  have hH1 : (1 : ℚ) ≤ nr.roiH := by
    rw [hnr]
    simp [normalizeRegion, minSize]
  have hW1 : (1 : ℚ) ≤ nr.roiW := by
    rw [hnr]
    simp [normalizeRegion, minSize]
  have hqH : 0 < nr.roiH / (pooledH : ℚ) :=
    div_pos (lt_of_lt_of_le one_pos hH1) (by exact_mod_cast hH)
  have hqW : 0 < nr.roiW / (pooledW : ℚ) :=
    div_pos (lt_of_lt_of_le one_pos hW1) (by exact_mod_cast hW)
  have hcH : 0 < ⌈nr.roiH / (pooledH : ℚ)⌉ := Int.ceil_pos.mpr hqH
  have hcW : 0 < ⌈nr.roiW / (pooledW : ℚ)⌉ := Int.ceil_pos.mpr hqW
  refine ⟨?_, ?_, ?_, ?_, ?_⟩
  · simp [alignSamplePoints, List.length_flatten, List.map_map, Function.comp_def,
      List.length_map, List.length_range, List.map_const', List.sum_replicate, smul_eq_mul]
  · intro h
    constructor <;> (unfold gridDim; rw [if_pos h])
  · intro hsr
    constructor <;> (unfold gridDim; rw [if_neg (not_lt.mpr hsr)])
    · exact Nat.max_eq_right (by omega)
    · exact Nat.max_eq_right (by omega)
  · unfold gridDim
    split
    · omega
    · exact le_max_left 1 _
  · unfold gridDim
    split
    · omega
    · exact le_max_left 1 _

/-- Witness for C4: the adaptive grid of the full-image region of the
concrete scenario, bin size 2, has ceiling grid dimension 2 and 2 by 2
equals 4 sample points. -/
theorem align_sampling_grid_size_witness :
    (alignSamplePoints (normalizeRegion 1 ex4Roi) 0 0 2 2 (-1)).length
        = gridDim (-1) ((normalizeRegion 1 ex4Roi).roiH / (2 : ℚ))
          * gridDim (-1) ((normalizeRegion 1 ex4Roi).roiW / (2 : ℚ)) ∧
    1 ≤ gridDim (-1) ((normalizeRegion 1 ex4Roi).roiH / (2 : ℚ)) :=
  let h := align_sampling_grid_size ex4Roi 1 2 2 0 0 (-1) (normalizeRegion 1 ex4Roi)
    rfl (by decide) (by decide)
  ⟨h.1, h.2.2.2.1⟩

/-- Reading the GradInput tensor of the pool backward kernel at an in-range
cell yields the additive accumulation over all regions. -/
lemma at4_pool_backward (gOut : Tensor4 ℚ) (rois : List Roi) (cmT : Tensor4 ℕ)
    (scale : ℚ) (pooledH pooledW bs chN H W b ch y x : ℕ)
    (hb : b < bs) (hch : ch < chN) (hy : y < H) (hx : x < W) :
    at4 (ps_roi_pool_backward gOut rois cmT scale pooledH pooledW bs chN H W) 0 b ch y x
      = psRoiPoolGradAcc scale pooledH pooledW H W (outChannels chN pooledH pooledW)
          ((List.range rois.length).map fun k =>
            (rois.getD k dRoi, gradSliceOf gOut k, cmSliceOf cmT k)) b ch y x := by
  simp only [ps_roi_pool_backward]
  unfold at4
  rw [getD_map_range _ _ hb, getD_map_range _ _ hch, getD_map_range _ _ hy,
    getD_map_range _ _ hx]

/-- Reading the GradInput tensor of the align backward kernel at an
in-range cell yields the additive accumulation over all regions. -/
lemma at4_align_backward (gOut : Tensor4 ℚ) (rois : List Roi) (cmT : Tensor4 ℕ)
    (scale : ℚ) (pooledH pooledW : ℕ) (sr : ℤ) (bs chN H W b ch y x : ℕ)
    (hb : b < bs) (hch : ch < chN) (hy : y < H) (hx : x < W) :
    at4 (ps_roi_align_backward gOut rois cmT scale pooledH pooledW sr bs chN H W) 0 b ch y x
      = psRoiAlignGradAcc scale sr pooledH pooledW (outChannels chN pooledH pooledW)
          ((List.range rois.length).map fun k =>
            (rois.getD k dRoi, gradSliceOf gOut k, cmSliceOf cmT k)) b ch y x := by
  simp only [ps_roi_align_backward]
  unfold at4
  rw [getD_map_range _ _ hb, getD_map_range _ _ hch, getD_map_range _ _ hy,
    getD_map_range _ _ hx]

/-- C3: for two regions, the GradInput cell produced by the backward pass
over both regions together equals the sum of the GradInput cells each
region produces independently, for both operators - gradient accumulation
is additive, never an overwrite. -/
theorem backward_additive_accumulation (gOut : Tensor4 ℚ) (cmT : Tensor4 ℕ)
    (r1 r2 : Roi) (scale : ℚ) (pooledH pooledW bs chN H W : ℕ) (sr : ℤ)
    (b ch y x : ℕ) (hb : b < bs) (hch : ch < chN) (hy : y < H) (hx : x < W) :
    at4 (ps_roi_pool_backward gOut [r1, r2] cmT scale pooledH pooledW bs chN H W) 0 b ch y x
      = at4 (ps_roi_pool_backward [gOut.getD 0 []] [r1] [cmT.getD 0 []]
          scale pooledH pooledW bs chN H W) 0 b ch y x
      + at4 (ps_roi_pool_backward [gOut.getD 1 []] [r2] [cmT.getD 1 []]
          scale pooledH pooledW bs chN H W) 0 b ch y x ∧
    at4 (ps_roi_align_backward gOut [r1, r2] cmT scale pooledH pooledW sr bs chN H W) 0 b ch y x
      = at4 (ps_roi_align_backward [gOut.getD 0 []] [r1] [cmT.getD 0 []]
          scale pooledH pooledW sr bs chN H W) 0 b ch y x
      + at4 (ps_roi_align_backward [gOut.getD 1 []] [r2] [cmT.getD 1 []]
          scale pooledH pooledW sr bs chN H W) 0 b ch y x := by
  constructor
  · rw [at4_pool_backward gOut [r1, r2] cmT scale pooledH pooledW bs chN H W b ch y x
        hb hch hy hx,
      at4_pool_backward [gOut.getD 0 []] [r1] [cmT.getD 0 []] scale pooledH pooledW
        bs chN H W b ch y x hb hch hy hx,
      at4_pool_backward [gOut.getD 1 []] [r2] [cmT.getD 1 []] scale pooledH pooledW
        bs chN H W b ch y x hb hch hy hx]
    simp only [psRoiPoolGradAcc, List.length_cons, List.length_nil, List.range_succ,
      List.range_zero, List.nil_append, List.map_append, List.map_cons, List.map_nil,
      List.sum_append, List.sum_cons, List.sum_nil, add_zero, zero_add]
    rfl
  · rw [at4_align_backward gOut [r1, r2] cmT scale pooledH pooledW sr bs chN H W b ch y x
        hb hch hy hx,
      at4_align_backward [gOut.getD 0 []] [r1] [cmT.getD 0 []] scale pooledH pooledW
        sr bs chN H W b ch y x hb hch hy hx,
      at4_align_backward [gOut.getD 1 []] [r2] [cmT.getD 1 []] scale pooledH pooledW
        sr bs chN H W b ch y x hb hch hy hx]
    simp only [psRoiAlignGradAcc, List.length_cons, List.length_nil, List.range_succ,
      List.range_zero, List.nil_append, List.map_append, List.map_cons, List.map_nil,
      List.sum_append, List.sum_cons, List.sum_nil, add_zero, zero_add]
    rfl

/-- Witness for C3: two identical full-patch regions on a 2 by 2 input with
1 by 1 pooling accumulate additively at cell (0, 0, 0, 0). -/
theorem backward_additive_accumulation_witness :
    at4 (ps_roi_pool_backward [[[[1]]], [[[1]]]] [⟨0, 0, 0, 2, 2⟩, ⟨0, 0, 0, 2, 2⟩]
        [[[[0]]], [[[0]]]] 1 1 1 1 1 2 2) 0 0 0 0 0
      = at4 (ps_roi_pool_backward [[[[1]]]] [⟨0, 0, 0, 2, 2⟩] [[[[0]]]] 1 1 1 1 1 2 2) 0 0 0 0 0
      + at4 (ps_roi_pool_backward [[[[1]]]] [⟨0, 0, 0, 2, 2⟩] [[[[0]]]] 1 1 1 1 1 2 2) 0 0 0 0 0 ∧
    at4 (ps_roi_align_backward [[[[1]]], [[[1]]]] [⟨0, 0, 0, 2, 2⟩, ⟨0, 0, 0, 2, 2⟩]
        [[[[0]]], [[[0]]]] 1 1 1 1 1 1 2 2) 0 0 0 0 0
      = at4 (ps_roi_align_backward [[[[1]]]] [⟨0, 0, 0, 2, 2⟩] [[[[0]]]] 1 1 1 1 1 1 2 2) 0 0 0 0 0
      + at4 (ps_roi_align_backward [[[[1]]]] [⟨0, 0, 0, 2, 2⟩] [[[[0]]]] 1 1 1 1 1 1 2 2) 0 0 0 0 0 :=
  backward_additive_accumulation [[[[1]]], [[[1]]]] [[[[0]]], [[[0]]]]
    ⟨0, 0, 0, 2, 2⟩ ⟨0, 0, 0, 2, 2⟩ 1 1 1 1 1 2 2 1 0 0 0 0
    (by decide) (by decide) (by decide) (by decide)

/-- C10: an int-valued output_size makes the forward pass of both operators
fail with a Python TypeError, because the raw output_size argument is
subscripted rather than the _pair-normalized value stored for backward;
pair-valued output_size subscripts succeed. -/
theorem int_output_size_type_error (input : FeatureMap) (rois : List Roi)
    (scale : ℚ) (n a b : ℕ) (sr : ℤ) :
    PSRoIPoolFunction.forward input rois (OutputSize.int n) scale
        = Except.error (FwdError.py PyError.typeError) ∧
    PSRoIAlignFunction.forward input rois (OutputSize.int n) scale sr
        = Except.error (FwdError.py PyError.typeError) ∧
    subscriptOS (OutputSize.int n) 0 = Except.error PyError.typeError ∧
    subscriptOS (OutputSize.pair a b) 0 = Except.ok a ∧
    subscriptOS (OutputSize.pair a b) 1 = Except.ok b ∧
    pairOf (OutputSize.int n) = (n, n) := by
  exact ⟨rfl, rfl, rfl, rfl, rfl, rfl⟩

end PSRoI
